import Mathlib

/-!
Verification of the DNS-record aggregation and target-classification core of
the `ip-ns-lookup` Cloudflare worker (`src/worker.js`).

JavaScript strings are modelled as `List Char` (`Str`).  The worker's uses of
`String.prototype.split` are modelled by hand-rolled structural splitters
(`splitCh` for a one-character separator, `splitDC` for the two-character
separator "::"), with `joinSep` / `joinDC` modelling `Array.prototype.join`.
The JS regular expressions are modelled as executable recognizers whose
acceptance sets match the regex alternatives character class by character
class; each definition carries a comment naming the regex it embeds.

The DoH transport (`fetch`) is modelled as an oracle `Fetch` mapping a query
name and a record type to a `FetchResult`; the worker's three failure modes
(network error, non-success HTTP status, body that fails to parse as JSON)
are the three non-`ok` constructors.
-/

set_option maxRecDepth 4096

/-- JS strings as lists of characters. -/
abbrev Str := List Char

/-- Model of `s.split(c)` for a single-character separator `c`
(JS semantics: `"".split(c)` is `[""]`, separators at the ends produce
empty fields). -/
def splitCh (sep : Char) : Str → List Str
  | [] => [[]]
  | c :: rest =>
    if c = sep then [] :: splitCh sep rest
    else
      match splitCh sep rest with
      | g :: gs => (c :: g) :: gs
      | [] => [[c]]

/-- Model of `parts.join(sep)` (JS semantics: empty array joins to ""). -/
def joinSep (sep : Char) : List Str → Str
  | [] => []
  | [p] => p
  | p :: q :: ps => p ++ sep :: joinSep sep (q :: ps)

/-- Model of `s.split("::")`: leftmost, non-overlapping occurrences. -/
def splitDC : Str → List Str
  | [] => [[]]
  | [c] => [[c]]
  | c :: d :: rest =>
    if c = ':' ∧ d = ':' then [] :: splitDC rest
    else
      match splitDC (d :: rest) with
      | g :: gs => (c :: g) :: gs
      | [] => [[c]]

/-- Model of `parts.join("::")`. -/
def joinDC : List Str → Str
  | [] => []
  | [p] => p
  | p :: q :: ps => p ++ ':' :: ':' :: joinDC (q :: ps)

/-- `true` when the string has no "::" substring. -/
def noDC : Str → Bool
  | [] => true
  | [_] => true
  | c :: d :: rest => if c = ':' ∧ d = ':' then false else noDC (d :: rest)

/-- Model of `ip.includes("::")`. -/
def containsDCb : Str → Bool
  | [] => false
  | [_] => false
  | c :: d :: rest => if c = ':' ∧ d = ':' then true else containsDCb (d :: rest)

/-- Regex character class `[0-9]` (code points 48-57). -/
def isDigitCh (c : Char) : Bool := decide (48 ≤ c.toNat ∧ c.toNat ≤ 57)

/-- Regex character class `[0-9a-fA-F]`. -/
def isHexCh (c : Char) : Bool :=
  isDigitCh c || decide (97 ≤ c.toNat ∧ c.toNat ≤ 102) ||
    decide (65 ≤ c.toNat ∧ c.toNat ≤ 70)

/-- Decimal value of a digit string (the number an octet group denotes). -/
def decVal (s : Str) : Nat := s.foldl (fun n c => 10 * n + (c.toNat - 48)) 0

/-- Recognizer of the octet regex `25[0-5]|2[0-4][0-9]|[01]?[0-9][0-9]?`
from `IP_REGEX` / `isIPv4` in `worker.js`.  Length 1: any digit; length 2:
any two digits (third alternative with the optional `[01]` absent); length
3: the three leading-digit-constrained alternatives.  `'2'` is code point
50, `'5'` is 53, `'0'` is 48, `'1'` is 49, `'4'` is 52. -/
def matchOctet : Str → Bool
  | [a] => isDigitCh a
  | [a, b] => isDigitCh a && isDigitCh b
  | [a, b, c] =>
    (decide (a.toNat = 50) && decide (b.toNat = 53) &&
      decide (48 ≤ c.toNat ∧ c.toNat ≤ 53)) ||
    (decide (a.toNat = 50) && decide (48 ≤ b.toNat ∧ b.toNat ≤ 52) &&
      isDigitCh c) ||
    ((decide (a.toNat = 48) || decide (a.toNat = 49)) && isDigitCh b &&
      isDigitCh c)
  | _ => false

/-- Recognizer of the dotted-quad alternative
`^(?:oct\.){3}oct$` of `IP_REGEX` (also the whole regex of `isIPv4`):
exactly four dot-separated fields, each matching the octet regex. -/
def isIPv4Quad (s : Str) : Bool :=
  (splitCh '.' s).length == 4 && (splitCh '.' s).all matchOctet

/-- Hex group `[0-9a-fA-F]{1,4}` of the IPv6 alternatives. -/
def isHexGroup (g : Str) : Bool :=
  decide (1 ≤ g.length) && decide (g.length ≤ 4) && g.all isHexCh

/-- Alternative `^(?:h:){7}h$` of `IP_REGEX`: a full 8-group IPv6 form. -/
def ipv6Full (s : Str) : Bool :=
  (splitCh ':' s).length == 8 && (splitCh ':' s).all isHexGroup

/-- Alternatives 3-9 of `IP_REGEX`, i.e. `^(?:h:){k}:(?:h:){0,6-k}h$` for
`k = 0..6`: a single "::" with `k` hex groups on the left, at least one hex
group on the right and at most 7 groups in total. -/
def ipv6Compressed (s : Str) : Bool :=
  match splitDC s with
  | [l, r] =>
    let left := if l = [] then [] else splitCh ':' l
    let right := if r = [] then [] else splitCh ':' r
    !(r = []) && left.all isHexGroup && right.all isHexGroup &&
      decide (left.length + right.length ≤ 7)
  | _ => false

/-- Alternative `^::(?:ffff:)?quad$` of `IP_REGEX` (IPv4-mapped forms):
either "::" followed by a dotted quad, or "::ffff:" followed by a dotted
quad.  The `ffff` is literal lowercase in the regex. -/
def ipv6Mapped (s : Str) : Bool :=
  (decide (s.take 2 = ("::").data) && isIPv4Quad (s.drop 2)) ||
  (decide (s.take 7 = ("::ffff:").data) && isIPv4Quad (s.drop 7))

/-- Alternative `^(?:h:){6}quad$` of `IP_REGEX` (IPv4-embedded form). -/
def ipv6HexQuad (s : Str) : Bool :=
  match splitCh ':' s with
  | [g1, g2, g3, g4, g5, g6, q] =>
    [g1, g2, g3, g4, g5, g6].all isHexGroup && isIPv4Quad q
  | _ => false

/-- Model of `IP_REGEX.test(s)` (`worker.js` line 7): the disjunction of all
thirteen alternatives, the last two being the literals `::` and `::1`. -/
def testIPRegex (s : Str) : Bool :=
  isIPv4Quad s || ipv6Full s || ipv6Compressed s || ipv6Mapped s ||
    ipv6HexQuad s || s == ("::").data || s == ("::1").data

/-- `isIPv4` from `worker.js` (line 53): the dotted-quad regex test. -/
def isIPv4 (s : Str) : Bool := isIPv4Quad s

/-- `isIPv6` from `worker.js` (line 58):
`str.includes(':') && !isIPv4(str) && IP_REGEX.test(str)`. -/
def isIPv6 (s : Str) : Bool := s.contains ':' && !isIPv4 s && testIPRegex s

/-- Target kinds of the spec's classifier contract (spec section 4.1). -/
inductive TargetKind where
  | IPv4 : TargetKind
  | IPv6 : TargetKind
  | Domain : TargetKind
deriving DecidableEq

/-- The classifier of spec section 4.1 assembled from the worker's
predicates: `IPv4` if `isIPv4`, else `IPv6` if `isIPv6`, else `Domain`. -/
def classify (s : Str) : TargetKind :=
  if isIPv4 s then TargetKind.IPv4
  else if isIPv6 s then TargetKind.IPv6
  else TargetKind.Domain

/-- `h.padStart(4, '0')` from `expandIPv6`. -/
def padStart4 (g : Str) : Str := List.replicate (4 - g.length) '0' ++ g

/-- `expandIPv6` from `worker.js` (lines 32-50), translated clause by
clause.  In the compressed branch the JS builds
`Array(8 - left.length - right.length).fill('0000')`; the model uses
truncated `Nat` subtraction where the JS would throw a `RangeError` on a
negative length (that region is outside every valid input and outside
every claim). -/
def expandIPv6 (ip : Str) : Str :=
  if ip = ("::").data then ("0000:0000:0000:0000:0000:0000:0000:0000").data
  else if ip = ("::1").data then
    ("0000:0000:0000:0000:0000:0000:0000:0001").data
  else
    match splitDC ip with
    | [l, r] =>
      let left := if l = [] then [] else splitCh ':' l
      let right := if r = [] then [] else splitCh ':' r
      let middle := List.replicate (8 - left.length - right.length)
        (("0000").data)
      joinSep ':' ((left ++ middle ++ right).map padStart4)
    | _ => joinSep ':' ((splitCh ':' ip).map padStart4)

/-- `ipv4ToReverseDNS` from `worker.js` (line 18):
`ip.split('.').reverse().join('.') + '.in-addr.arpa'`. -/
def ipv4ToReverseDNS (ip : Str) : Str :=
  joinSep '.' (splitCh '.' ip).reverse ++ (".in-addr.arpa").data

/-- `ipv6ToReverseDNS` from `worker.js` (line 23): expand only when the
input contains "::", then strip colons, reverse the characters, join them
with dots and append ".ip6.arpa". -/
def ipv6ToReverseDNS (ip : Str) : Str :=
  let expandedIP := if containsDCb ip then expandIPv6 ip else ip
  let nibbles :=
    joinSep '.' ((expandedIP.filter (fun c => !(c = ':'))).reverse.map
      (fun c => [c]))
  nibbles ++ (".ip6.arpa").data

/-- One DNS answer as delivered by the DoH JSON body (spec section 3). -/
structure DNSAnswer where
  name : Str
  rtype : Nat
  ttl : Nat
  rdata : Str
deriving DecidableEq

/-- Outcome of one `fetch` to the DoH endpoint, as observed by the worker:
`netError` models the fetch promise rejecting, `httpError` models
`!res.ok`, `badJson` models `res.json()` throwing, and `ok a` models a
parsed body whose `Answer` field is `a` (`none` when absent). -/
inductive FetchResult where
  | netError : FetchResult
  | httpError : FetchResult
  | badJson : FetchResult
  | ok : Option (List DNSAnswer) → FetchResult
deriving DecidableEq

/-- The DoH transport oracle: query name and record type to outcome. -/
abbrev Fetch := Str → Str → FetchResult

/-- `true` on the three outcomes the worker's `try`/`catch` and `!res.ok`
checks turn into an empty entry. -/
def isFail : FetchResult → Bool
  | FetchResult.ok _ => false
  | _ => true

/-- Lines 91-100 of `performDNSLookups`: issue the fetch; a thrown error or
non-ok status yields `[]`; otherwise `data.Answer || []`. -/
def fetchAnswers (net : Fetch) (q ty : Str) : List DNSAnswer :=
  match net q ty with
  | FetchResult.ok (some ans) => ans
  | FetchResult.ok none => []
  | _ => []

/-- `DNS_TYPES` from `worker.js` line 4. -/
def DNS_TYPES : List Str :=
  [("A").data, ("AAAA").data, ("MX").data, ("TXT").data, ("NS").data,
   ("CNAME").data, ("SOA").data, ("PTR").data]

/-- The six record types skipped for IP targets on line 85 of `worker.js`
(`A`, `AAAA`, `MX`, `CNAME`, `NS`, `SOA` — note that `TXT` is absent). -/
def SKIP_TYPES : List Str :=
  [("A").data, ("AAAA").data, ("MX").data, ("CNAME").data, ("NS").data,
   ("SOA").data]

/-- The per-type body of `performDNSLookups` (lines 68-103), with `isIp`
hoisted as in line 65.  Returns the query name actually fetched (`none`
when the type is skipped without a network call) together with the value
stored into `results[type]`. -/
def lookupOne (net : Fetch) (isIp : Bool) (target ty : Str) :
    Option Str × List DNSAnswer :=
  if ty = ("PTR").data then
    if !isIp then (none, [])
    else
      let queryName :=
        if isIPv4 target then ipv4ToReverseDNS target
        else if isIPv6 target then ipv6ToReverseDNS target
        else target
      (some queryName, fetchAnswers net queryName ty)
  else if isIp && SKIP_TYPES.contains ty then (none, [])
  else (some target, fetchAnswers net target ty)

/-- `performDNSLookups` (lines 63-107) with an instrumented transport: the
first component is the `results` mapping (one entry per requested type, in
request order), the second the list of `(queryName, type)` pairs actually
sent to the DoH endpoint. -/
def performDNSLookupsT (net : Fetch) (target : Str) (dnsTypes : List Str) :
    List (Str × List DNSAnswer) × List (Str × Str) :=
  let isIp := testIPRegex target
  (dnsTypes.map (fun ty => (ty, (lookupOne net isIp target ty).2)),
   dnsTypes.filterMap
     (fun ty => (lookupOne net isIp target ty).1.map (fun q => (q, ty))))

/-- The `results` object returned by `performDNSLookups`. -/
def performDNSLookups (net : Fetch) (target : Str) (dnsTypes : List Str) :
    List (Str × List DNSAnswer) :=
  (performDNSLookupsT net target dnsTypes).1

/-- Minimal JSON values, enough for the worker's response bodies. -/
inductive Json where
  | str : Str → Json
  | num : Nat → Json
  | arr : List Json → Json
  | obj : List (Str × Json) → Json
  | null : Json

/-- External calls issued by the `/api/analyze` handler: DoH queries and
the `api.ipapi.is` geolocation query. -/
inductive ExtCall where
  | doh : Str → Str → ExtCall
  | ipapi : Str → ExtCall
deriving DecidableEq

/-- Character class of the `/api/analyze` validation regex
`^[a-zA-Z0-9.:-]+$` (line 231): ASCII letters, digits, '.', ':', '-'. -/
def isTargetChar (c : Char) : Bool :=
  decide (97 ≤ c.toNat ∧ c.toNat ≤ 122) ||
  decide (65 ≤ c.toNat ∧ c.toNat ≤ 90) ||
  isDigitCh c || decide (c.toNat = 46) || decide (c.toNat = 58) ||
  decide (c.toNat = 45)

/-- JSON rendering of one DNS answer (shape of the serialized response). -/
def renderAnswer (a : DNSAnswer) : Json :=
  Json.obj [(("name").data, Json.str a.name), (("type").data, Json.num a.rtype),
            (("TTL").data, Json.num a.ttl), (("data").data, Json.str a.rdata)]

/-- JSON rendering of the `dns` field of the response. -/
def renderDns (dns : List (Str × List DNSAnswer)) : Json :=
  Json.obj (dns.map (fun e => (e.1, Json.arr (e.2.map renderAnswer))))

/-- The error bodies built on lines 224 and 233:
a JSON object with a single `error` field. -/
def errJson (m : String) : Json := Json.obj [(("error").data, Json.str m.data)]

/-- First `data` field of an answer list, for
`dns.A?.[0]?.data` (line 255). -/
def answerDataFirst : Option (List DNSAnswer) → Option Str
  | some (a :: _) => some a.rdata
  | _ => none

/-- Lines 255-257: `dns.A?.[0]?.data || dns.AAAA?.[0]?.data || target`,
with JS falsiness (an empty string falls through to the next operand). -/
def ipapiTargetOf (dns : List (Str × List DNSAnswer)) (target : Str) : Str :=
  let a := answerDataFirst (dns.lookup (("A").data))
  let b := answerDataFirst (dns.lookup (("AAAA").data))
  let r := match a with
    | some s => if s.isEmpty then b else some s
    | none => b
  match r with
  | some s => if s.isEmpty then target else s
  | none => target

/-- The `GET /api/analyze` route (lines 220-266).  The `target` query
parameter is `none` when absent; JS `!target` is also true for the empty
string.  The result is the `(status, body)` pair together with the list of
external calls performed (none on the two 400 paths).  `ipapiF` is the
`api.ipapi.is` collaborator, total because the worker catches its
failures and substitutes an error object. -/
def handleAnalyze (net : Fetch) (ipapiF : Str → Json) (target : Option Str) :
    (Nat × Json) × List ExtCall :=
  match target with
  | none => ((400, errJson ("target required")), [])
  | some t =>
    if t.isEmpty then ((400, errJson ("target required")), [])
    else if !t.all isTargetChar then ((400, errJson ("Invalid target format")), [])
    else
      let isIp := testIPRegex t
      let dnsOut := performDNSLookupsT net t DNS_TYPES
      let ipapiTarget := if isIp then t else ipapiTargetOf dnsOut.1 t
      ((200,
        Json.obj [(("target").data, Json.str t),
                  (("dns").data, renderDns dnsOut.1),
                  (("ipapi").data, ipapiF ipapiTarget)]),
       dnsOut.2.map (fun c => ExtCall.doh c.1 c.2) ++ [ExtCall.ipapi ipapiTarget])

/-- Modelled from the spec's words (section 4.1, C8): an octet group is
1-3 decimal digits whose numeric value is at most 255 (leading zeros
accepted). -/
def SpecOctet (g : Str) : Prop :=
  1 ≤ g.length ∧ g.length ≤ 3 ∧ g.all isDigitCh = true ∧ decVal g ≤ 255

/-- Modelled from the spec's words (section 4.1, C8): the dotted-quad
grammar — four octet groups separated by literal dots, anchored at both
ends. -/
def SpecIPv4 (s : Str) : Prop :=
  ∃ g1 g2 g3 g4, s = g1 ++ '.' :: (g2 ++ '.' :: (g3 ++ '.' :: g4)) ∧
    SpecOctet g1 ∧ SpecOctet g2 ∧ SpecOctet g3 ∧ SpecOctet g4

/-- Modelled from the spec's words (section 4.1, C7): a single `::`
compression at any group boundary, including leading and trailing — hex
groups of 1-4 digits on either side, at most 7 groups in total, either
side possibly empty.  Stated for comparison with the code's
`ipv6Compressed`, which additionally demands a non-empty right side. -/
def specSingleCompressionForm (s : Str) : Bool :=
  match splitDC s with
  | [l, r] =>
    let left := if l = [] then [] else splitCh ':' l
    let right := if r = [] then [] else splitCh ':' r
    left.all isHexGroup && right.all isHexGroup &&
      decide (left.length + right.length ≤ 7)
  | _ => false
theorem splitCh_ne_nil (sep : Char) (s : Str) : splitCh sep s ≠ [] := by
  induction s with
  | nil => simp [splitCh]
  | cons c rest ih =>
    simp only [splitCh]
    split
    · simp
    · split <;> simp_all

theorem joinSep_splitCh (sep : Char) (s : Str) : joinSep sep (splitCh sep s) = s := by
  induction s with
  | nil => rfl
  | cons c rest ih =>
    simp only [splitCh]
    rcases h : splitCh sep rest with _ | ⟨g, gs⟩
    · exact absurd h (splitCh_ne_nil sep rest)
    · rw [h] at ih
      by_cases hc : c = sep
      · subst hc
        simp only [if_pos rfl, joinSep]
        simpa using ih
      · simp only [if_neg hc]
        cases gs with
        | nil => simpa [joinSep] using congrArg (c :: ·) ih
        | cons g2 gs2 =>
          simp only [joinSep] at ih ⊢
          rw [List.cons_append, ih]

theorem not_mem_of_mem_splitCh {sep : Char} {s p : Str}
    (hp : p ∈ splitCh sep s) : sep ∉ p := by
  induction s generalizing p with
  | nil =>
    simp only [splitCh, List.mem_singleton] at hp
    subst hp; simp
  | cons c rest ih =>
    simp only [splitCh] at hp
    by_cases hc : c = sep
    · rw [if_pos hc] at hp
      rcases List.mem_cons.mp hp with hp | hp
      · subst hp; simp
      · exact ih hp
    · rw [if_neg hc] at hp
      rcases h : splitCh sep rest with _ | ⟨g, gs⟩
      · exact absurd h (splitCh_ne_nil sep rest)
      · rw [h] at hp
        rcases List.mem_cons.mp hp with hp | hp
        · subst hp
          intro hmem
          rcases List.mem_cons.mp hmem with h1 | h1
          · exact hc h1.symm
          · exact ih (h ▸ List.mem_cons_self g gs) h1
        · exact ih (h ▸ List.mem_cons_of_mem g hp)

theorem splitCh_of_not_mem {sep : Char} {s : Str} (h : sep ∉ s) :
    splitCh sep s = [s] := by
  induction s with
  | nil => rfl
  | cons c rest ih =>
    simp only [List.mem_cons, not_or] at h
    have hc : ¬c = sep := fun he => h.1 he.symm
    simp only [splitCh, if_neg hc, ih h.2]

theorem splitCh_append_cons {sep : Char} {p : Str} (t : Str) (hp : sep ∉ p) :
    splitCh sep (p ++ sep :: t) = p :: splitCh sep t := by
  induction p with
  | nil => simp [splitCh]
  | cons c p' ih =>
    simp only [List.mem_cons, not_or] at hp
    rw [List.cons_append, splitCh, if_neg (fun he => hp.1 he.symm), ih hp.2]

theorem splitCh_joinSep {sep : Char} {parts : List Str} (hne : parts ≠ [])
    (hfree : ∀ p ∈ parts, sep ∉ p) :
    splitCh sep (joinSep sep parts) = parts := by
  induction parts with
  | nil => exact absurd rfl hne
  | cons p ps ih =>
    cases ps with
    | nil => exact splitCh_of_not_mem (hfree p (List.mem_cons_self p []))
    | cons q qs =>
      simp only [joinSep]
      rw [splitCh_append_cons _ (hfree p (List.mem_cons_self p _)),
        ih (by simp) (fun r hr => hfree r (List.mem_cons_of_mem p hr))]

theorem mem_joinSep {sep : Char} {c : Char} {p : Str} {parts : List Str}
    (hc : c ∈ p) (hp : p ∈ parts) : c ∈ joinSep sep parts := by
  induction parts with
  | nil => simp at hp
  | cons q qs ih =>
    cases qs with
    | nil =>
      simp only [List.mem_singleton] at hp
      subst hp; simpa [joinSep] using hc
    | cons r rs =>
      simp only [joinSep]
      rcases List.mem_cons.mp hp with h | h
      · subst h; exact List.mem_append_left _ hc
      · exact List.mem_append_right _ (List.mem_cons_of_mem _ (ih h))

theorem eq_or_mem_of_mem_joinSep {sep : Char} {c : Char} {parts : List Str}
    (hc : c ∈ joinSep sep parts) : c = sep ∨ ∃ p ∈ parts, c ∈ p := by
  induction parts with
  | nil => simp [joinSep] at hc
  | cons q qs ih =>
    cases qs with
    | nil =>
      right; exact ⟨q, List.mem_cons_self q [], by simpa [joinSep] using hc⟩
    | cons r rs =>
      simp only [joinSep] at hc
      rcases List.mem_append.mp hc with h | h
      · right; exact ⟨q, List.mem_cons_self q _, h⟩
      · rcases List.mem_cons.mp h with h | h
        · exact Or.inl h
        · rcases ih h with h | ⟨p, hp, hcp⟩
          · exact Or.inl h
          · exact Or.inr ⟨p, List.mem_cons_of_mem q hp, hcp⟩

theorem splitDC_ne_nil (s : Str) : splitDC s ≠ [] := by
  induction s with
  | nil => simp [splitDC]
  | cons c rest ih =>
    cases rest with
    | nil => simp [splitDC]
    | cons d rest' =>
      rw [splitDC]
      split
      · simp
      · split <;> simp_all

theorem joinDC_splitDC (s : Str) : joinDC (splitDC s) = s := by
  induction s using splitDC.induct with
  | case1 => rfl
  | case2 c => rfl
  | case3 c d rest h ih =>
    rw [splitDC, if_pos h]
    rcases h with ⟨h1, h2⟩; subst h1; subst h2
    rcases hs : splitDC rest with _ | ⟨g, gs⟩
    · exact absurd hs (splitDC_ne_nil rest)
    · rw [hs] at ih
      simp only [joinDC]
      simpa using ih
  | case4 c d rest h g gs heq ih =>
    rw [splitDC, if_neg h, heq]
    rw [heq] at ih
    show joinDC ((c :: g) :: gs) = c :: d :: rest
    cases gs with
    | nil => simpa [joinDC] using congrArg (c :: ·) ih
    | cons g2 gs2 =>
      simp only [joinDC] at ih ⊢
      rw [List.cons_append, ih]
  | case5 c d rest h heq ih =>
    exact absurd heq (splitDC_ne_nil _)

/-- Head-character test used to chain `noDC` across joins. -/
def headIsColon : Str → Bool
  | [] => false
  | c :: _ => decide (c = ':')

theorem noDC_splitDC {s : Str} : noDC s = true → splitDC s = [s] := by
  induction s using splitDC.induct with
  | case1 => intro; rfl
  | case2 c => intro; rfl
  | case3 c d rest h ih =>
    intro hno
    rw [noDC, if_pos h] at hno
    exact absurd hno (by simp)
  | case4 c d rest h g gs heq ih =>
    intro hno
    rw [noDC, if_neg h] at hno
    have := ih hno
    rw [heq] at this
    injection this with e1 e2
    subst e1; subst e2
    rw [splitDC, if_neg h, heq]
  | case5 c d rest h heq ih =>
    intro
    exact absurd heq (splitDC_ne_nil _)

theorem noDC_of_not_mem {s : Str} : (':') ∉ s → noDC s = true := by
  induction s with
  | nil => intro; rfl
  | cons c rest ih =>
    intro h
    simp only [List.mem_cons, not_or] at h
    cases rest with
    | nil => rfl
    | cons d rest' =>
      rw [noDC, if_neg (fun hc => h.1 hc.1.symm)]
      exact ih h.2

theorem noDC_append {p t : Str} (hp : (':') ∉ p) (ht : noDC t = true)
    (hh : headIsColon t = false) : noDC (p ++ ':' :: t) = true := by
  induction p with
  | nil =>
    cases t with
    | nil => rfl
    | cons u t' =>
      simp only [List.nil_append]
      have hu : ¬u = ':' := by
        simpa [headIsColon] using hh
      rw [noDC, if_neg (fun hc => hu hc.2)]
      exact ht
  | cons c p' ih =>
    simp only [List.mem_cons, not_or] at hp
    rcases hpt : p' ++ ':' :: t with _ | ⟨d, rest2⟩
    · exact absurd hpt (by simp)
    · simp only [List.cons_append, hpt]
      rw [noDC, if_neg (fun hc => hp.1 hc.1.symm)]
      rw [← hpt]
      exact ih hp.2

theorem headIsColon_joinSep {q : Str} {qs : List Str} (hq : q ≠ [])
    (hqc : (':') ∉ q) : headIsColon (joinSep ':' (q :: qs)) = false := by
  rcases q with _ | ⟨c, q'⟩
  · exact absurd rfl hq
  · have hc : ¬c = ':' := fun h => hqc (h ▸ List.mem_cons_self c q')
    cases qs with
    | nil => simpa [joinSep, headIsColon] using hc
    | cons r rs => simpa [joinSep, headIsColon] using hc

theorem noDC_joinSep {parts : List Str}
    (h : ∀ p ∈ parts, p ≠ [] ∧ (':') ∉ p) :
    noDC (joinSep ':' parts) = true := by
  induction parts with
  | nil => rfl
  | cons p ps ih =>
    cases ps with
    | nil => exact noDC_of_not_mem (h p (List.mem_cons_self p [])).2
    | cons q qs =>
      simp only [joinSep]
      have hq := h q (List.mem_cons_of_mem p (List.mem_cons_self q qs))
      exact noDC_append (h p (List.mem_cons_self p _)).2
        (ih (fun r hr => h r (List.mem_cons_of_mem p hr)))
        (headIsColon_joinSep hq.1 hq.2)

theorem splitDC_two {s l r : Str} (h : splitDC s = [l, r]) :
    s = l ++ ':' :: ':' :: r := by
  have := joinDC_splitDC s
  rw [h] at this
  simpa [joinDC] using this.symm

theorem mem_of_splitCh_length {sep : Char} {s : Str}
    (h : (splitCh sep s).length ≠ 1) : sep ∈ s := by
  by_contra hmem
  rw [splitCh_of_not_mem hmem] at h
  simp at h

theorem matchOctet_iff {p : Str} :
    matchOctet p = true ↔
      (1 ≤ p.length ∧ p.length ≤ 3 ∧ p.all isDigitCh = true ∧
        decVal p ≤ 255) := by
  rcases p with _ | ⟨a, _ | ⟨b, _ | ⟨c, _ | ⟨d, t⟩⟩⟩⟩
  · simp [matchOctet]
  · simp only [matchOctet, decVal, List.foldl, isDigitCh, List.all,
      List.length_cons, List.length_nil, Bool.and_eq_true, Bool.or_eq_true,
      Bool.and_true, decide_eq_true_eq]
    omega
  · simp only [matchOctet, decVal, List.foldl, isDigitCh, List.all,
      List.length_cons, List.length_nil, Bool.and_eq_true, Bool.or_eq_true,
      Bool.and_true, decide_eq_true_eq]
    omega
  · simp only [matchOctet, decVal, List.foldl, isDigitCh, List.all,
      List.length_cons, List.length_nil, Bool.and_eq_true, Bool.or_eq_true,
      Bool.and_true, decide_eq_true_eq]
    omega
  · constructor
    · intro h; exact absurd h (by simp [matchOctet])
    · intro h; exact absurd h.2.1 (by simp only [List.length_cons]; omega)

theorem digits_of_matchOctet {p : Str} (h : matchOctet p = true) :
    ∀ c ∈ p, isDigitCh c = true :=
  List.all_eq_true.mp (matchOctet_iff.mp h).2.2.1

theorem colon_not_mem_of_isIPv4Quad {s : Str} (h : isIPv4Quad s = true) :
    (':') ∉ s := by
  intro hmem
  rw [isIPv4Quad, Bool.and_eq_true, List.all_eq_true] at h
  rw [← joinSep_splitCh '.' s] at hmem
  rcases eq_or_mem_of_mem_joinSep hmem with h1 | ⟨p, hp, hcp⟩
  · exact absurd h1 (by decide)
  · exact absurd (digits_of_matchOctet (h.2 p hp) ':' hcp) (by decide)

theorem dot_mem_of_isIPv4Quad {s : Str} (h : isIPv4Quad s = true) :
    ('.') ∈ s := by
  rw [isIPv4Quad, Bool.and_eq_true] at h
  have hlen : (splitCh '.' s).length = 4 := by
    have := h.1; simpa using this
  exact mem_of_splitCh_length (by omega)

theorem isHexCh_not_colon {c : Char} (h : isHexCh c = true) : ¬c = ':' := by
  intro he; subst he; exact absurd h (by decide)

theorem isHexGroup_spec {g : Str} (h : isHexGroup g = true) :
    g ≠ [] ∧ g.length ≤ 4 ∧ (∀ c ∈ g, isHexCh c = true) ∧ (':') ∉ g := by
  rw [isHexGroup, Bool.and_eq_true, Bool.and_eq_true] at h
  have h1 : 1 ≤ g.length := of_decide_eq_true h.1.1
  have h2 : g.length ≤ 4 := of_decide_eq_true h.1.2
  have h3 := List.all_eq_true.mp h.2
  refine ⟨?_, h2, h3, ?_⟩
  · intro he; subst he; simp at h1
  · intro hmem; exact absurd (h3 ':' hmem) (by decide)

theorem padStart4_spec {g : Str} (hlen : g.length ≤ 4)
    (hhex : ∀ c ∈ g, isHexCh c = true) :
    (padStart4 g).length = 4 ∧ (∀ c ∈ padStart4 g, isHexCh c = true) ∧
      (':') ∉ padStart4 g := by
  refine ⟨?_, ?_, ?_⟩
  · simp [padStart4]; omega
  · intro c hc
    rcases List.mem_append.mp hc with h | h
    · have := List.eq_of_mem_replicate h
      subst this; decide
    · exact hhex c h
  · intro hc
    rcases List.mem_append.mp hc with h | h
    · exact absurd (List.eq_of_mem_replicate h) (by decide)
    · exact absurd (hhex ':' h) (by decide)

theorem splitCh_join_map_pad {groups : List Str} (hne : groups ≠ [])
    (hfree : ∀ p ∈ groups, (':') ∉ padStart4 p) :
    splitCh ':' (joinSep ':' (groups.map padStart4)) = groups.map padStart4 := by
  apply splitCh_joinSep
  · simpa using hne
  · intro q hq
    rcases List.mem_map.mp hq with ⟨p, hp, hppad⟩
    exact hppad ▸ hfree p hp

theorem expandIPv6_of_splitDC_one {s : Str} (h2 : s ≠ ("::").data)
    (h3 : s ≠ ("::1").data) (hs : splitDC s = [s]) :
    expandIPv6 s = joinSep ':' ((splitCh ':' s).map padStart4) := by
  rw [expandIPv6, if_neg h2, if_neg h3, hs]

theorem expandIPv6_of_splitDC_two {s l r : Str} (h2 : s ≠ ("::").data)
    (h3 : s ≠ ("::1").data) (hs : splitDC s = [l, r]) :
    expandIPv6 s =
      joinSep ':' (((if l = [] then [] else splitCh ':' l) ++
        List.replicate
          (8 - (if l = [] then [] else splitCh ':' l).length -
            (if r = [] then [] else splitCh ':' r).length) (("0000").data) ++
        (if r = [] then [] else splitCh ':' r)).map padStart4) := by
  rw [expandIPv6, if_neg h2, if_neg h3, hs]

theorem ipv6Compressed_spec {s : Str} (h : ipv6Compressed s = true) :
    ∃ l r, splitDC s = [l, r] ∧ r ≠ [] ∧
      (∀ p ∈ (if l = [] then [] else splitCh ':' l), isHexGroup p = true) ∧
      (∀ p ∈ (if r = [] then [] else splitCh ':' r), isHexGroup p = true) ∧
      (if l = [] then [] else splitCh ':' l).length +
        (if r = [] then [] else splitCh ':' r).length ≤ 7 := by
  rw [ipv6Compressed] at h
  rcases hsd : splitDC s with _ | ⟨l, ls⟩
  · exact absurd hsd (splitDC_ne_nil s)
  rcases ls with _ | ⟨r, rs⟩
  · rw [hsd] at h; simp at h
  rcases rs with _ | ⟨x, xs⟩
  · rw [hsd] at h
    simp only [Bool.and_eq_true, Bool.not_eq_true', decide_eq_true_eq,
      decide_eq_false_iff_not, List.all_eq_true] at h
    exact ⟨l, r, rfl, h.1.1.1, h.1.1.2, h.1.2, h.2⟩
  · rw [hsd] at h; simp at h

theorem expandIPv6_groups {s : Str}
    (h : ipv6Full s = true ∨ ipv6Compressed s = true ∨ s = ("::").data ∨
      s = ("::1").data) :
    (splitCh ':' (expandIPv6 s)).length = 8 ∧
      ∀ g ∈ splitCh ':' (expandIPv6 s),
        g.length = 4 ∧ ∀ c ∈ g, isHexCh c = true := by
  by_cases h2 : s = ("::").data
  · subst h2; exact ⟨by decide, by decide⟩
  by_cases h3 : s = ("::1").data
  · subst h3; exact ⟨by decide, by decide⟩
  rcases h with hfull | hcomp | h' | h'
  · rw [ipv6Full, Bool.and_eq_true, List.all_eq_true] at hfull
    have hlen : (splitCh ':' s).length = 8 := by
      have := hfull.1; simpa using this
    have hparts := hfull.2
    have hsplit : splitDC s = [s] := by
      apply noDC_splitDC
      conv in s => rw [← joinSep_splitCh ':' s]
      apply noDC_joinSep
      intro p hp
      have hx := isHexGroup_spec (hparts p hp)
      exact ⟨hx.1, hx.2.2.2⟩
    rw [expandIPv6_of_splitDC_one h2 h3 hsplit]
    have hgspec : ∀ p ∈ splitCh ':' s,
        p.length ≤ 4 ∧ ∀ c ∈ p, isHexCh c = true := by
      intro p hp
      have hx := isHexGroup_spec (hparts p hp)
      exact ⟨hx.2.1, hx.2.2.1⟩
    have hfree : ∀ p ∈ splitCh ':' s, (':') ∉ padStart4 p := fun p hp =>
      (padStart4_spec (hgspec p hp).1 (hgspec p hp).2).2.2
    rw [splitCh_join_map_pad (splitCh_ne_nil ':' s) hfree]
    constructor
    · rw [List.length_map, hlen]
    · intro g hg
      rcases List.mem_map.mp hg with ⟨p, hp, hpg⟩
      have := padStart4_spec (hgspec p hp).1 (hgspec p hp).2
      exact hpg ▸ ⟨this.1, this.2.1⟩
  · rcases ipv6Compressed_spec hcomp with ⟨l, r, hsd, hr, hlhex, hrhex, hlen7⟩
    rw [expandIPv6_of_splitDC_two h2 h3 hsd]
    have hgspec : ∀ p ∈ (if l = [] then [] else splitCh ':' l) ++
        List.replicate
          (8 - (if l = [] then [] else splitCh ':' l).length -
            (if r = [] then [] else splitCh ':' r).length) (("0000").data) ++
        (if r = [] then [] else splitCh ':' r),
        p.length ≤ 4 ∧ ∀ c ∈ p, isHexCh c = true := by
      intro p hp
      rcases List.mem_append.mp hp with hp1 | hp1
      · rcases List.mem_append.mp hp1 with hp2 | hp2
        · have hx := isHexGroup_spec (hlhex p hp2)
          exact ⟨hx.2.1, hx.2.2.1⟩
        · have := List.eq_of_mem_replicate hp2
          subst this
          exact ⟨by decide, by decide⟩
      · have hx := isHexGroup_spec (hrhex p hp1)
        exact ⟨hx.2.1, hx.2.2.1⟩
    have hfree : ∀ p ∈ (if l = [] then [] else splitCh ':' l) ++
        List.replicate
          (8 - (if l = [] then [] else splitCh ':' l).length -
            (if r = [] then [] else splitCh ':' r).length) (("0000").data) ++
        (if r = [] then [] else splitCh ':' r), (':') ∉ padStart4 p :=
      fun p hp => (padStart4_spec (hgspec p hp).1 (hgspec p hp).2).2.2
    have hrlen : 1 ≤ (if r = [] then [] else splitCh ':' r).length := by
      rw [if_neg hr]
      have := splitCh_ne_nil ':' r
      cases hsc : splitCh ':' r with
      | nil => exact absurd hsc this
      | cons a as => simp
    have hne : (if l = [] then [] else splitCh ':' l) ++
        List.replicate
          (8 - (if l = [] then [] else splitCh ':' l).length -
            (if r = [] then [] else splitCh ':' r).length) (("0000").data) ++
        (if r = [] then [] else splitCh ':' r) ≠ [] := by
      intro he
      have := congrArg List.length he
      simp only [List.length_append, List.length_replicate,
        List.length_nil] at this
      omega
    rw [splitCh_join_map_pad hne hfree]
    constructor
    · rw [List.length_map]
      simp only [List.length_append, List.length_replicate]
      omega
    · intro g hg
      rcases List.mem_map.mp hg with ⟨p, hp, hpg⟩
      have := padStart4_spec (hgspec p hp).1 (hgspec p hp).2
      exact hpg ▸ ⟨this.1, this.2.1⟩
  · exact absurd h' h2
  · exact absurd h' h3

theorem isIPv4Quad_ne_nil {q : Str} (h : isIPv4Quad q = true) : q ≠ [] := by
  intro he; subst he; exact absurd h (by decide)

theorem headIsColon_of_not_mem {t : Str} (h : (':') ∉ t) :
    headIsColon t = false := by
  cases t with
  | nil => rfl
  | cons c t' =>
    simp only [List.mem_cons, not_or] at h
    simpa [headIsColon] using fun he => h.1 he.symm

theorem noDC_of_parts {s : Str}
    (hall : ∀ p ∈ splitCh ':' s, p ≠ [] ∧ (':') ∉ p) : noDC s = true := by
  conv in s => rw [← joinSep_splitCh ':' s]
  exact noDC_joinSep hall

theorem ipv6Full_parts {s : Str} (h : ipv6Full s = true) :
    ∀ p ∈ splitCh ':' s, p ≠ [] ∧ (':') ∉ p := by
  rw [ipv6Full, Bool.and_eq_true, List.all_eq_true] at h
  intro p hp
  have hx := isHexGroup_spec (h.2 p hp)
  exact ⟨hx.1, hx.2.2.2⟩

theorem ipv6Mapped_spec {s : Str} (h : ipv6Mapped s = true) :
    ∃ q, isIPv4Quad q = true ∧
      (s = ':' :: ':' :: q ∨ s = ':' :: ':' :: 'f' :: 'f' :: 'f' :: 'f' :: ':' :: q) := by
  rw [ipv6Mapped, Bool.or_eq_true, Bool.and_eq_true, Bool.and_eq_true,
    decide_eq_true_eq, decide_eq_true_eq] at h
  rcases h with ⟨ht, hq⟩ | ⟨ht, hq⟩
  · refine ⟨s.drop 2, hq, Or.inl ?_⟩
    conv_lhs => rw [← List.take_append_drop 2 s]
    rw [ht]; rfl
  · refine ⟨s.drop 7, hq, Or.inr ?_⟩
    conv_lhs => rw [← List.take_append_drop 7 s]
    rw [ht]; rfl

theorem ipv6HexQuad_parts {s : Str} (h : ipv6HexQuad s = true) :
    ∀ p ∈ splitCh ':' s, p ≠ [] ∧ (':') ∉ p := by
  rw [ipv6HexQuad] at h
  rcases hsc : splitCh ':' s with _ | ⟨g1, t1⟩
  · rw [hsc] at h; exact absurd h (by simp)
  rcases t1 with _ | ⟨g2, t2⟩
  · rw [hsc] at h; exact absurd h (by simp)
  rcases t2 with _ | ⟨g3, t3⟩
  · rw [hsc] at h; exact absurd h (by simp)
  rcases t3 with _ | ⟨g4, t4⟩
  · rw [hsc] at h; exact absurd h (by simp)
  rcases t4 with _ | ⟨g5, t5⟩
  · rw [hsc] at h; exact absurd h (by simp)
  rcases t5 with _ | ⟨g6, t6⟩
  · rw [hsc] at h; exact absurd h (by simp)
  rcases t6 with _ | ⟨q, t7⟩
  · rw [hsc] at h; exact absurd h (by simp)
  rcases t7 with _ | ⟨x, xs⟩
  · rw [hsc] at h
    simp only [Bool.and_eq_true, List.all_eq_true, List.forall_mem_cons,
      List.forall_mem_nil, and_true] at h
    intro p hp
    simp only [List.mem_cons, List.not_mem_nil, or_false] at hp
    rcases hp with rfl | rfl | rfl | rfl | rfl | rfl | rfl
    · exact ⟨(isHexGroup_spec h.1.1).1, (isHexGroup_spec h.1.1).2.2.2⟩
    · exact ⟨(isHexGroup_spec h.1.2.1).1, (isHexGroup_spec h.1.2.1).2.2.2⟩
    · exact ⟨(isHexGroup_spec h.1.2.2.1).1, (isHexGroup_spec h.1.2.2.1).2.2.2⟩
    · exact ⟨(isHexGroup_spec h.1.2.2.2.1).1,
        (isHexGroup_spec h.1.2.2.2.1).2.2.2⟩
    · exact ⟨(isHexGroup_spec h.1.2.2.2.2.1).1,
        (isHexGroup_spec h.1.2.2.2.2.1).2.2.2⟩
    · exact ⟨(isHexGroup_spec h.1.2.2.2.2.2.1).1,
        (isHexGroup_spec h.1.2.2.2.2.2.1).2.2.2⟩
    · exact ⟨isIPv4Quad_ne_nil h.2, colon_not_mem_of_isIPv4Quad h.2⟩
  · rw [hsc] at h; exact absurd h (by simp)

theorem splitDC_le_two_of_regex {s : Str} (h : testIPRegex s = true) :
    (splitDC s).length ≤ 2 := by
  rw [testIPRegex] at h
  simp only [Bool.or_eq_true, beq_iff_eq] at h
  rcases h with ((((((hq | hf) | hc) | hm) | hx) | he) | he)
  · rw [noDC_splitDC (noDC_of_not_mem (colon_not_mem_of_isIPv4Quad hq))]
    simp
  · rw [noDC_splitDC (noDC_of_parts (ipv6Full_parts hf))]; simp
  · rcases ipv6Compressed_spec hc with ⟨l, r, hsd, -⟩
    rw [hsd]; simp
  · rcases ipv6Mapped_spec hm with ⟨q, hq, hs | hs⟩
    · subst hs
      rw [splitDC, if_pos ⟨rfl, rfl⟩,
        noDC_splitDC (noDC_of_not_mem (colon_not_mem_of_isIPv4Quad hq))]
      simp
    · subst hs
      rw [splitDC, if_pos ⟨rfl, rfl⟩]
      have hnodc : noDC ('f' :: 'f' :: 'f' :: 'f' :: ':' :: q) = true := by
        have : (['f', 'f', 'f', 'f'] : Str) ++ ':' :: q =
            'f' :: 'f' :: 'f' :: 'f' :: ':' :: q := rfl
        rw [← this]
        exact noDC_append (by decide)
          (noDC_of_not_mem (colon_not_mem_of_isIPv4Quad hq))
          (headIsColon_of_not_mem (colon_not_mem_of_isIPv4Quad hq))
      rw [noDC_splitDC hnodc]
      simp
  · rw [noDC_splitDC (noDC_of_parts (ipv6HexQuad_parts hx))]; simp
  · subst he; decide
  · subst he; decide

theorem colon_mem_of_v6alt {s : Str}
    (h : ipv6Full s = true ∨ ipv6Compressed s = true ∨ ipv6Mapped s = true ∨
      ipv6HexQuad s = true ∨ s = ("::").data ∨ s = ("::1").data) :
    (':') ∈ s := by
  rcases h with hf | hc | hm | hx | he | he
  · rw [ipv6Full, Bool.and_eq_true] at hf
    apply mem_of_splitCh_length
    have := hf.1
    simp only [beq_iff_eq] at this
    omega
  · rcases ipv6Compressed_spec hc with ⟨l, r, hsd, -⟩
    rw [splitDC_two hsd]
    exact List.mem_append_right l (List.mem_cons_self ':' _)
  · rcases ipv6Mapped_spec hm with ⟨q, hq, hs | hs⟩ <;> subst hs <;> simp
  · by_contra hmem
    rw [ipv6HexQuad, splitCh_of_not_mem hmem] at hx
    simp at hx
  · subst he; decide
  · subst he; decide

theorem ip_not_v4_is_v6 {s : Str} (hip : testIPRegex s = true)
    (hv4 : isIPv4 s = false) : isIPv6 s = true := by
  have halt : ipv6Full s = true ∨ ipv6Compressed s = true ∨
      ipv6Mapped s = true ∨ ipv6HexQuad s = true ∨ s = ("::").data ∨
      s = ("::1").data := by
    have hip' := hip
    rw [testIPRegex] at hip'
    simp only [Bool.or_eq_true, beq_iff_eq] at hip'
    have hnq : ¬isIPv4Quad s = true := by
      rw [isIPv4] at hv4; rw [hv4]; simp
    tauto
  have hcol : s.contains ':' = true := by
    simpa using colon_mem_of_v6alt halt
  rw [isIPv6, hcol, hv4, hip]
  rfl

theorem lookup_map_self {β : Type} {l : List Str} {f : Str → β} {a : Str}
    (h : a ∈ l) :
    (l.map (fun x => (x, f x))).lookup a = some (f a) := by
  induction l with
  | nil => simp at h
  | cons x xs ih =>
    simp only [List.map, List.lookup]
    by_cases hax : a = x
    · subst hax; simp
    · have hbeq : (a == x) = false := by simpa using hax
      rw [hbeq]
      exact ih (by
        rcases List.mem_cons.mp h with h1 | h1
        · exact absurd h1 hax
        · exact h1)

theorem fetchAnswers_of_fail {net : Fetch} {q ty : Str}
    (h : isFail (net q ty) = true) : fetchAnswers net q ty = [] := by
  rcases hnet : net q ty with _ | _ | _ | ans
  · simp [fetchAnswers, hnet]
  · simp [fetchAnswers, hnet]
  · simp [fetchAnswers, hnet]
  · rw [hnet] at h; exact absurd h (by simp [isFail])

theorem lookupOne_congr {net net' : Fetch} {isIp : Bool} {target ty : Str}
    (h : ∀ q, net q ty = net' q ty) :
    lookupOne net isIp target ty = lookupOne net' isIp target ty := by
  have hf : ∀ q, fetchAnswers net q ty = fetchAnswers net' q ty := fun q => by
    rw [fetchAnswers, fetchAnswers, h q]
  simp only [lookupOne, hf]

theorem skip_mem_facts {ty : Str} (h : ty ∈ SKIP_TYPES) :
    ¬ty = ("PTR").data ∧ SKIP_TYPES.contains ty = true := by
  constructor
  · intro he; subst he; revert h; decide
  · simpa using h

theorem perform_fst (net : Fetch) (target : Str) (types : List Str) :
    performDNSLookups net target types =
      types.map (fun ty => (ty, (lookupOne net (testIPRegex target) target ty).2)) :=
  rfl

theorem perform_snd (net : Fetch) (target : Str) (types : List Str) :
    (performDNSLookupsT net target types).2 =
      types.filterMap
        (fun ty => (lookupOne net (testIPRegex target) target ty).1.map
          (fun q => (q, ty))) :=
  rfl

/-- C1 counterexample: the claim's notion of an inapplicable type follows
the spec's applicability rules, under which `TXT` is domain-only, so for an
IP target the TXT entry would have to be empty.  The worker's skip list
omits `TXT`: for the IP target 1.2.3.4 a TXT query is issued, and a
transport that answers it makes the TXT entry non-empty, refuting the
claim as stated. -/
theorem C1_counterexample :
    testIPRegex (("1.2.3.4").data) = true ∧
    ¬(∀ net : Fetch,
        (performDNSLookups net (("1.2.3.4").data) DNS_TYPES).lookup
            (("TXT").data) = some []) := by
  refine ⟨by decide, fun hclaim => ?_⟩
  have h := hclaim (fun q t =>
    if t = ("TXT").data then
      FetchResult.ok (some [⟨q, 16, 60, ("sample-text").data⟩])
    else FetchResult.httpError)
  exact absurd h (by decide)

/-- C1 (amended): for every target and requested type list, the mapping
returned by `performDNSLookups` has an entry for every requested type — no
key missing — and the entry is the empty sequence whenever the type was
inapplicable under the code's skip rules (`PTR` against a domain, or one of
the six types `A`, `AAAA`, `MX`, `CNAME`, `NS`, `SOA` against an IP — `TXT`
excepted) or the DoH lookup for that type failed. -/
theorem C1_mapping_complete (net : Fetch) (target : Str) (types : List Str)
    (ty : Str) (hty : ty ∈ types) :
    ∃ ans, (performDNSLookups net target types).lookup ty = some ans ∧
      (((ty = ("PTR").data ∧ testIPRegex target = false) ∨
        (testIPRegex target = true ∧ ty ∈ SKIP_TYPES) ∨
        (∀ q, isFail (net q ty) = true)) → ans = []) := by
  refine ⟨(lookupOne net (testIPRegex target) target ty).2, ?_, ?_⟩
  · rw [perform_fst]
    exact lookup_map_self hty
  · rintro (⟨hptr, hip⟩ | ⟨hip, hsk⟩ | hfail)
    · rw [lookupOne, if_pos hptr, hip]
      simp
    · rcases skip_mem_facts hsk with ⟨hne, hcont⟩
      rw [lookupOne, if_neg hne, hip, hcont]
      simp
    · rw [lookupOne]
      split
      · split
        · rfl
        · exact fetchAnswers_of_fail (hfail _)
      · split
        · rfl
        · exact fetchAnswers_of_fail (hfail _)

/-- C2: if every DoH response for one record type fails (network error,
non-success status, or malformed JSON), that type's entry in the mapping is
the empty sequence and the entries of all other types are unchanged (they
depend only on the transport's responses for their own type).  The model
returns a plain value, so no exception can escape the aggregator. -/
theorem C2_failure_isolation (net net' : Fetch) (target : Str)
    (types : List Str) (ty : Str)
    (hagree : ∀ q t, t ≠ ty → net q t = net' q t)
    (hfail : ∀ q, isFail (net q ty) = true) (hty : ty ∈ types) :
    (performDNSLookups net target types).lookup ty = some [] ∧
      ∀ t ∈ types, t ≠ ty →
        (performDNSLookups net target types).lookup t =
          (performDNSLookups net' target types).lookup t := by
  constructor
  · rw [perform_fst, lookup_map_self hty]
    congr 1
    rw [lookupOne]
    split
    · split
      · rfl
      · exact fetchAnswers_of_fail (hfail _)
    · split
      · rfl
      · exact fetchAnswers_of_fail (hfail _)
  · intro t hmem hne
    rw [perform_fst, perform_fst, lookup_map_self hmem, lookup_map_self hmem]
    exact congrArg (fun x => some x.2)
      (lookupOne_congr (fun q => hagree q t hne))

/-- C3 (amended): for an IP target, each of the six types `A`, `AAAA`,
`MX`, `CNAME`, `NS`, `SOA` yields an empty entry with no network call
issued for that type. -/
theorem C3_ip_skip_types (net : Fetch) (target : Str) (types : List Str)
    (ty : Str) (hip : testIPRegex target = true) (hsk : ty ∈ SKIP_TYPES)
    (hty : ty ∈ types) :
    (performDNSLookups net target types).lookup ty = some [] ∧
      ∀ q, (q, ty) ∉ (performDNSLookupsT net target types).2 := by
  rcases skip_mem_facts hsk with ⟨hne, hcont⟩
  have hskip : lookupOne net (testIPRegex target) target ty = (none, []) := by
    rw [lookupOne, if_neg hne, hip, hcont]; simp
  constructor
  · rw [perform_fst, lookup_map_self hty, hskip]
  · intro q hq
    rw [perform_snd] at hq
    rcases List.mem_filterMap.mp hq with ⟨t, htmem, hmap⟩
    rcases ho : (lookupOne net (testIPRegex target) target t).1 with _ | q'
    · rw [ho] at hmap; simp at hmap
    · rw [ho] at hmap
      simp only [Option.map_some'] at hmap
      have hpair := Option.some.inj hmap
      have hteq : t = ty := congrArg Prod.snd hpair
      subst hteq
      rw [hskip] at ho
      simp at ho

/-- C3 counterexample: the claim also lists `TXT` among the types that must
be skipped for an IP target, but the worker's skip list omits `TXT`: for
the IP target 8.8.8.8 a TXT query is issued and its answers are returned,
so a transport can make the TXT entry non-empty. -/
theorem C3_counterexample :
    testIPRegex (("8.8.8.8").data) = true ∧
    ¬(∀ net : Fetch,
        (performDNSLookups net (("8.8.8.8").data) DNS_TYPES).lookup
            (("TXT").data) = some [] ∧
        ∀ q, (q, ("TXT").data) ∉
          (performDNSLookupsT net (("8.8.8.8").data) DNS_TYPES).2) := by
  refine ⟨by decide, fun hclaim => ?_⟩
  have h := hclaim (fun q t =>
    if t = ("TXT").data then
      FetchResult.ok (some [⟨q, 16, 300, ("v=spf1 -all").data⟩])
    else FetchResult.httpError)
  exact h.2 (("8.8.8.8").data) (by decide)

theorem lookupOne_ptr_ip {net : Fetch} {target : Str}
    (hip : testIPRegex target = true) :
    lookupOne net (testIPRegex target) target (("PTR").data) =
      (some (if isIPv4 target = true then ipv4ToReverseDNS target
          else ipv6ToReverseDNS target),
        fetchAnswers net
          (if isIPv4 target = true then ipv4ToReverseDNS target
            else ipv6ToReverseDNS target) (("PTR").data)) := by
  rw [hip]
  by_cases hv4 : isIPv4 target = true
  · simp [lookupOne, hv4]
  · have hv4f : isIPv4 target = false := by simpa using hv4
    have hv6 := ip_not_v4_is_v6 hip hv4f
    simp [lookupOne, hv4f, hv6]

/-- C4: `PTR` against a domain target yields an empty entry with no query
sent; `PTR` against an IP target issues exactly the query whose name is the
reverse-DNS name of that IP; and
`ipv4ToReverseDNS "1.2.3.4" = "4.3.2.1.in-addr.arpa"`. -/
theorem C4_ptr_handling (net : Fetch) (target : Str) (types : List Str) :
    (testIPRegex target = false →
      ((("PTR").data ∈ types →
        (performDNSLookups net target types).lookup (("PTR").data) =
          some []) ∧
       ∀ q, (q, ("PTR").data) ∉ (performDNSLookupsT net target types).2)) ∧
    (testIPRegex target = true →
      ((("PTR").data ∈ types →
        ((if isIPv4 target = true then ipv4ToReverseDNS target
            else ipv6ToReverseDNS target), ("PTR").data) ∈
          (performDNSLookupsT net target types).2) ∧
       ∀ q, (q, ("PTR").data) ∈ (performDNSLookupsT net target types).2 →
         q = (if isIPv4 target = true then ipv4ToReverseDNS target
           else ipv6ToReverseDNS target))) ∧
    ipv4ToReverseDNS (("1.2.3.4").data) = ("4.3.2.1.in-addr.arpa").data := by
  refine ⟨?_, ?_, by decide⟩
  · intro hip
    have hdom : lookupOne net (testIPRegex target) target (("PTR").data) =
        (none, []) := by
      rw [hip, lookupOne]; simp
    constructor
    · intro hty
      rw [perform_fst, lookup_map_self hty, hdom]
    · intro q hq
      rw [perform_snd] at hq
      rcases List.mem_filterMap.mp hq with ⟨t, htmem, hmap⟩
      rcases ho : (lookupOne net (testIPRegex target) target t).1 with _ | q'
      · rw [ho] at hmap; simp at hmap
      · rw [ho] at hmap
        simp only [Option.map_some'] at hmap
        have hpair := Option.some.inj hmap
        have hteq : t = ("PTR").data := congrArg Prod.snd hpair
        subst hteq
        rw [hdom] at ho
        simp at ho
  · intro hip
    constructor
    · intro hty
      rw [perform_snd]
      refine List.mem_filterMap.mpr ⟨("PTR").data, hty, ?_⟩
      rw [lookupOne_ptr_ip hip]
      rfl
    · intro q hq
      rw [perform_snd] at hq
      rcases List.mem_filterMap.mp hq with ⟨t, htmem, hmap⟩
      rcases ho : (lookupOne net (testIPRegex target) target t).1 with _ | q'
      · rw [ho] at hmap; simp at hmap
      · rw [ho] at hmap
        simp only [Option.map_some'] at hmap
        have hpair := Option.some.inj hmap
        have hteq : t = ("PTR").data := congrArg Prod.snd hpair
        subst hteq
        rw [lookupOne_ptr_ip hip] at ho
        have hq' := Option.some.inj ho
        have hqe : q' = q := congrArg Prod.fst hpair
        rw [← hqe, ← hq']

theorem ipv6HexQuad_spec {s : Str} (h : ipv6HexQuad s = true) :
    ∃ g1 g2 g3 g4 g5 g6 q, splitCh ':' s = [g1, g2, g3, g4, g5, g6, q] ∧
      isIPv4Quad q = true := by
  rw [ipv6HexQuad] at h
  rcases hsc : splitCh ':' s with _ | ⟨g1, t1⟩
  · rw [hsc] at h; exact absurd h (by simp)
  rcases t1 with _ | ⟨g2, t2⟩
  · rw [hsc] at h; exact absurd h (by simp)
  rcases t2 with _ | ⟨g3, t3⟩
  · rw [hsc] at h; exact absurd h (by simp)
  rcases t3 with _ | ⟨g4, t4⟩
  · rw [hsc] at h; exact absurd h (by simp)
  rcases t4 with _ | ⟨g5, t5⟩
  · rw [hsc] at h; exact absurd h (by simp)
  rcases t5 with _ | ⟨g6, t6⟩
  · rw [hsc] at h; exact absurd h (by simp)
  rcases t6 with _ | ⟨q, t7⟩
  · rw [hsc] at h; exact absurd h (by simp)
  rcases t7 with _ | ⟨x, xs⟩
  · rw [hsc] at h
    simp only [Bool.and_eq_true] at h
    exact ⟨g1, g2, g3, g4, g5, g6, q, rfl, h.2⟩
  · rw [hsc] at h; exact absurd h (by simp)

theorem dot_mem_of_ipv6HexQuad {s : Str} (h : ipv6HexQuad s = true) :
    ('.') ∈ s := by
  rcases ipv6HexQuad_spec h with ⟨g1, g2, g3, g4, g5, g6, q, hsc, hq⟩
  conv in s => rw [← joinSep_splitCh ':' s]
  rw [hsc]
  exact mem_joinSep (dot_mem_of_isIPv4Quad hq) (by simp)

/-- C5: evaluation of the code at the failing input.  The classifier
accepts `1:2:3:4:5:6:7:8`, yet `ipv6ToReverseDNS` does not expand it (the
input has no "::"), so the PTR name has 8 single-digit labels instead of
32: the result splits into 10 dot-separated fields rather than 34. -/
theorem C5_reverse_dns_skips_expansion :
    isIPv6 (("1:2:3:4:5:6:7:8").data) = true ∧
    ipv6ToReverseDNS (("1:2:3:4:5:6:7:8").data) =
      ("8.7.6.5.4.3.2.1.ip6.arpa").data ∧
    (splitCh '.' (ipv6ToReverseDNS (("1:2:3:4:5:6:7:8").data))).length = 10 :=
  ⟨by decide, by decide, by decide⟩

/-- C6 counterexample: `A:2:3:4:5:6:1.2.3.4` is accepted by the classifier
(IPv4-embedded alternative), but `expandIPv6` leaves the quad as one field
(7 colon-separated groups, not 8) and does not lowercase the `A`. -/
theorem C6_counterexample :
    testIPRegex (("A:2:3:4:5:6:1.2.3.4").data) = true ∧
    (splitCh ':' (expandIPv6 (("A:2:3:4:5:6:1.2.3.4").data))).length = 7 ∧
    ('A') ∈ expandIPv6 (("A:2:3:4:5:6:1.2.3.4").data) ∧
    ('.') ∈ expandIPv6 (("A:2:3:4:5:6:1.2.3.4").data) := by
  refine ⟨by decide, by decide, by decide, by decide⟩

/-- C6 (amended): for every string the classifier accepts as IPv6 that
contains no embedded dotted quad (no '.'), `expandIPv6` returns exactly 8
colon-separated groups, each of exactly 4 hex digits (case preserved from
the input). -/
theorem C6_expand_eight_groups (s : Str) (h6 : isIPv6 s = true)
    (hnd : ('.') ∉ s) :
    (splitCh ':' (expandIPv6 s)).length = 8 ∧
      ∀ g ∈ splitCh ':' (expandIPv6 s),
        g.length = 4 ∧ ∀ c ∈ g, isHexCh c = true := by
  apply expandIPv6_groups
  rw [isIPv6, Bool.and_eq_true, Bool.and_eq_true] at h6
  have hv4 : isIPv4Quad s = false := by
    have := h6.1.2
    simpa [isIPv4] using this
  have hreg := h6.2
  rw [testIPRegex] at hreg
  simp only [Bool.or_eq_true, beq_iff_eq] at hreg
  rcases hreg with ((((((hq | h) | h) | h) | h) | h) | h)
  · rw [hq] at hv4; cases hv4
  · exact Or.inl h
  · exact Or.inr (Or.inl h)
  · exfalso
    rcases ipv6Mapped_spec h with ⟨q, hq, hs | hs⟩ <;> subst hs <;>
      · have := dot_mem_of_isIPv4Quad hq
        exact hnd (by simp [this])
  · exact absurd (dot_mem_of_ipv6HexQuad h) hnd
  · exact Or.inr (Or.inr (Or.inl h))
  · exact Or.inr (Or.inr (Or.inr h))

/-- C7 counterexample: `1::` is a single-"::" compression at a trailing
group boundary and so matches the spec's enumeration of canonical forms
(`specSingleCompressionForm`), but the worker's regex rejects it (every
compressed alternative demands a hex group after the "::"), so the
classifier buckets it as `Domain`, not `IPv6`. -/
theorem C7_counterexample :
    specSingleCompressionForm (("1::").data) = true ∧
    isIPv6 (("1::").data) = false ∧
    classify (("1::").data) = TargetKind.Domain := by
  refine ⟨by decide, by decide, by decide⟩

/-- C7 (amended): for colon-containing strings, any string with two or more
"::" occurrences is classified `Domain`; the classifier returns `IPv6`
exactly on the regex's acceptance set (which requires at least one hex
group after a "::", the literal `::` apart); and any colon-containing
string outside that set is classified `Domain` — classification is a total
function, it never fails. -/
theorem C7_ipv6_classification (s : Str) (hc : (':') ∈ s) :
    (3 ≤ (splitDC s).length → classify s = TargetKind.Domain) ∧
    (testIPRegex s = true → classify s = TargetKind.IPv6) ∧
    (testIPRegex s = false → classify s = TargetKind.Domain) := by
  have hv4 : isIPv4 s = false := by
    rw [isIPv4]
    by_contra h
    have hq : isIPv4Quad s = true := by simpa using h
    exact colon_not_mem_of_isIPv4Quad hq hc
  refine ⟨?_, ?_, ?_⟩
  · intro h3
    have hreg : testIPRegex s = false := by
      by_contra h
      have hb : testIPRegex s = true := by simpa using h
      have := splitDC_le_two_of_regex hb
      omega
    have h6 : isIPv6 s = false := by rw [isIPv6, hreg]; simp
    simp [classify, hv4, h6]
  · intro hreg
    have h6 := ip_not_v4_is_v6 hreg hv4
    simp [classify, hv4, h6]
  · intro hreg
    have h6 : isIPv6 s = false := by rw [isIPv6, hreg]; simp
    simp [classify, hv4, h6]

theorem dot_not_mem_of_specOctet {g : Str} (h : SpecOctet g) : ('.') ∉ g := by
  intro hm
  have := List.all_eq_true.mp h.2.2.1 '.' hm
  exact absurd this (by decide)

/-- C8: `isIPv4` accepts exactly the spec's dotted-quad grammar — four
groups of 1-3 decimal digits, each numerically in 0-255, separated by
literal dots, anchored at both ends; leading zeros are accepted and an
out-of-range octet such as in `999.1.1.1` is rejected. -/
theorem C8_ipv4_grammar :
    (∀ s : Str, isIPv4 s = true ↔ SpecIPv4 s) ∧
    isIPv4 (("999.1.1.1").data) = false ∧
    isIPv4 (("010.1.1.1").data) = true ∧
    isIPv4 (("8.8.8.8").data) = true := by
  refine ⟨?_, by decide, by decide, by decide⟩
  intro s
  constructor
  · intro h
    rw [isIPv4, isIPv4Quad, Bool.and_eq_true, List.all_eq_true] at h
    have hlen : (splitCh '.' s).length = 4 := by
      have := h.1; simpa using this
    rcases hsc : splitCh '.' s with _ | ⟨g1, t1⟩
    · rw [hsc] at hlen; simp at hlen
    rcases t1 with _ | ⟨g2, t2⟩
    · rw [hsc] at hlen; simp at hlen
    rcases t2 with _ | ⟨g3, t3⟩
    · rw [hsc] at hlen; simp at hlen
    rcases t3 with _ | ⟨g4, t4⟩
    · rw [hsc] at hlen; simp at hlen
    rcases t4 with _ | ⟨x, xs⟩
    · have hs : s = g1 ++ '.' :: (g2 ++ '.' :: (g3 ++ '.' :: g4)) := by
        have hj := joinSep_splitCh '.' s
        rw [hsc] at hj
        simpa [joinSep] using hj.symm
      exact ⟨g1, g2, g3, g4, hs,
        matchOctet_iff.mp (h.2 g1 (by rw [hsc]; simp)),
        matchOctet_iff.mp (h.2 g2 (by rw [hsc]; simp)),
        matchOctet_iff.mp (h.2 g3 (by rw [hsc]; simp)),
        matchOctet_iff.mp (h.2 g4 (by rw [hsc]; simp))⟩
    · rw [hsc] at hlen; simp at hlen
  · rintro ⟨g1, g2, g3, g4, hs, h1, h2, h3, h4⟩
    have hfree : ∀ p ∈ [g1, g2, g3, g4], ('.') ∉ p := by
      intro p hp
      simp only [List.mem_cons, List.not_mem_nil, or_false] at hp
      rcases hp with rfl | rfl | rfl | rfl
      · exact dot_not_mem_of_specOctet h1
      · exact dot_not_mem_of_specOctet h2
      · exact dot_not_mem_of_specOctet h3
      · exact dot_not_mem_of_specOctet h4
    have hjoin : s = joinSep '.' [g1, g2, g3, g4] := by rw [hs]; rfl
    rw [isIPv4, isIPv4Quad, hjoin, splitCh_joinSep (by simp) hfree]
    simp [matchOctet_iff.mpr h1, matchOctet_iff.mpr h2,
      matchOctet_iff.mpr h3, matchOctet_iff.mpr h4]

/-- C10: on `GET /api/analyze`, an absent `target` parameter yields HTTP
400 with an `error` body "target required", and a target containing any
character outside ASCII letters, digits, '.', ':', '-' yields HTTP 400
with an `error` body "Invalid target format"; in both cases no DoH and no
ipapi call is performed (the call list is empty). -/
theorem C10_analyze_validation (net : Fetch) (ipapiF : Str → Json) :
    handleAnalyze net ipapiF none = ((400, errJson ("target required")), []) ∧
    ∀ t : Str, (∃ c ∈ t, isTargetChar c = false) →
      handleAnalyze net ipapiF (some t) =
        ((400, errJson ("Invalid target format")), []) := by
  constructor
  · rfl
  · rintro t ⟨c, hc, hbad⟩
    have hne : t.isEmpty = false := by
      cases t with
      | nil => cases hc
      | cons a as => rfl
    have hall : t.all isTargetChar = false := by
      by_contra hno
      have hT : t.all isTargetChar = true := by simpa using hno
      have := List.all_eq_true.mp hT c hc
      rw [hbad] at this
      cases this
    simp [handleAnalyze, hne, hall]

/-- C1 witness at a concrete transport, target and type. -/
theorem C1_witness :
    ∃ ans, (performDNSLookups (fun _ _ => FetchResult.httpError)
        (("example.com").data) DNS_TYPES).lookup (("A").data) = some ans ∧
      (((("A").data = ("PTR").data ∧
          testIPRegex (("example.com").data) = false) ∨
        (testIPRegex (("example.com").data) = true ∧
          ("A").data ∈ SKIP_TYPES) ∨
        (∀ q, isFail ((fun _ _ => FetchResult.httpError : Fetch) q
          (("A").data)) = true)) → ans = []) :=
  C1_mapping_complete (fun _ _ => FetchResult.httpError)
    (("example.com").data) DNS_TYPES (("A").data) (by decide)

/-- C2 witness: a transport failing exactly on type A. -/
theorem C2_witness :
    (performDNSLookups
        (fun _ t => if t = ("A").data then FetchResult.httpError
          else FetchResult.ok (some []))
        (("example.com").data) DNS_TYPES).lookup (("A").data) = some [] :=
  (C2_failure_isolation
    (fun _ t => if t = ("A").data then FetchResult.httpError
      else FetchResult.ok (some []))
    (fun _ t => if t = ("A").data then FetchResult.httpError
      else FetchResult.ok (some []))
    (("example.com").data) DNS_TYPES (("A").data)
    (fun _ _ _ => rfl) (fun _ => by simp [isFail]) (by decide)).1

/-- C3 witness for the amended claim: type A against the IP 8.8.8.8. -/
theorem C3_witness :
    (performDNSLookups (fun _ _ => FetchResult.httpError) (("8.8.8.8").data)
        DNS_TYPES).lookup (("A").data) = some [] :=
  (C3_ip_skip_types (fun _ _ => FetchResult.httpError) (("8.8.8.8").data)
    DNS_TYPES (("A").data) (by decide) (by decide) (by decide)).1

/-- C4 witness: the reverse-DNS equation extracted at a concrete
transport and target. -/
theorem C4_witness :
    ipv4ToReverseDNS (("1.2.3.4").data) = ("4.3.2.1.in-addr.arpa").data :=
  (C4_ptr_handling (fun _ _ => FetchResult.httpError)
    (("example.com").data) DNS_TYPES).2.2

/-- C6 witness at a compressed pure-hex address. -/
theorem C6_witness :
    (splitCh ':' (expandIPv6 (("2001:db8::1").data))).length = 8 ∧
      ∀ g ∈ splitCh ':' (expandIPv6 (("2001:db8::1").data)),
        g.length = 4 ∧ ∀ c ∈ g, isHexCh c = true :=
  C6_expand_eight_groups (("2001:db8::1").data) (by decide) (by decide)

/-- C7 witness: a double compression, a valid compressed address, and a
colon-containing non-address. -/
theorem C7_witness :
    classify (("1:2::3:4::5").data) = TargetKind.Domain ∧
    classify (("2001:db8::1").data) = TargetKind.IPv6 ∧
    classify (("not:a:real:address:zzzz").data) = TargetKind.Domain :=
  ⟨(C7_ipv6_classification (("1:2::3:4::5").data) (by decide)).1 (by decide),
   (C7_ipv6_classification (("2001:db8::1").data) (by decide)).2.1
     (by decide),
   (C7_ipv6_classification (("not:a:real:address:zzzz").data)
     (by decide)).2.2 (by decide)⟩

/-- C8 witness: 8.8.8.8 satisfies the spec grammar. -/
theorem C8_witness : SpecIPv4 (("8.8.8.8").data) :=
  (C8_ipv4_grammar.1 (("8.8.8.8").data)).mp (by decide)

/-- C10 witness: a target with a space is rejected with no external call. -/
theorem C10_witness :
    handleAnalyze (fun _ _ => FetchResult.httpError) (fun _ => Json.null)
        (some (("bad target").data)) =
      ((400, errJson ("Invalid target format")), []) :=
  (C10_analyze_validation (fun _ _ => FetchResult.httpError)
    (fun _ => Json.null)).2 (("bad target").data) ⟨' ', by decide, by decide⟩
